import Mathlib

/-!
Shallow embedding of the synacore-rs virtual machine (src/machine.rs,
src/parse.rs) and of the replay-file naming logic (src/replay.rs).

Machine words are Rust u16 values; they are modelled as Nat with explicit
reductions modulo 2^16 / 2^32 exactly where the Rust code converts or
wraps.  Rust panics (out-of-bounds Vec indexing, division by zero) are
modelled as an explicit `panic` outcome, so the step function
`Machine.run_once` returns `Option Machine`, `none` meaning the process
crashes.  Fallible instruction execution (the anyhow::Result of
`Machine::process_token`) is the `err` outcome, which `run_once` converts
into the `Error` run state exactly as the source does.
-/

namespace Synacore

/-- const U15_MAX: u16 = 32768 -/
def U15_MAX : Nat := 32768

/-- const REGISTER_OFFSET: u16 = U15_MAX -/
def REGISTER_OFFSET : Nat := U15_MAX

/-- const NUM_REGISTERS: u16 = 8 -/
def NUM_REGISTERS : Nat := 8

/-- Total memory size: U15_MAX + NUM_REGISTERS = 32776 cells
(`Machine::new` extends the program to this length). -/
def MEM_SIZE : Nat := U15_MAX + NUM_REGISTERS

/-- enum RunState (machine.rs).  The buffered output is kept as the list of
unicode scalar values of the characters, in order.  The constructor name
`InuptNeeded` keeps the source's spelling. -/
inductive RunState where
  | Continue : RunState
  | BufferedOutput : List Nat → RunState
  | InuptNeeded : RunState
  | Error : String → RunState
  | Halt : RunState
deriving DecidableEq, Repr

/-- struct Machine (machine.rs).  Character buffers hold unicode scalar
values (Nat) rather than an abstract character type. -/
structure Machine where
  run_state : RunState
  pc : Nat
  stack : List Nat
  memory : List Nat
  input_buffer : List Nat
  output_buffer : List Nat
deriving DecidableEq, Repr

/-- enum Token (parse.rs). -/
inductive Token where
  | Halt : Token
  | Set : Nat → Nat → Token
  | Push : Nat → Token
  | Pop : Nat → Token
  | Eq : Nat → Nat → Nat → Token
  | Gt : Nat → Nat → Nat → Token
  | Jmp : Nat → Token
  | Jt : Nat → Nat → Token
  | Jf : Nat → Nat → Token
  | Add : Nat → Nat → Nat → Token
  | Mult : Nat → Nat → Nat → Token
  | Mod : Nat → Nat → Nat → Token
  | And : Nat → Nat → Nat → Token
  | Or : Nat → Nat → Nat → Token
  | Not : Nat → Nat → Token
  | Rmem : Nat → Nat → Token
  | Wmem : Nat → Nat → Token
  | Call : Nat → Token
  | Ret : Token
  | Out : Nat → Token
  | In : Nat → Token
  | Noop : Token
  | Unknown : Nat → Token
deriving DecidableEq, Repr

/-- Token::parse (parse.rs): parse the next token out of a slice of u16's.
The numeric literals are the opcode constants HALT = 0, SET = 1, PUSH = 2,
POP = 3, EQ = 4, GT = 5, JMP = 6, JT = 7, JF = 8, ADD = 9, MULT = 10,
MOD = 11, AND = 12, OR = 13, NOT = 14, RMEM = 15, WMEM = 16, CALL = 17,
RET = 18, OUT = 19, IN = 20, NOOP = 21 from parse.rs. -/
def Token.parse (input : List Nat) : Option Token := do
  let val ← input.get? 0
  match val with
  | 0 => pure Token.Halt
  | 1 => do
      let register ← input.get? 1
      let value ← input.get? 2
      pure (Token.Set register value)
  | 2 => do
      let value ← input.get? 1
      pure (Token.Push value)
  | 3 => do
      let destination ← input.get? 1
      pure (Token.Pop destination)
  | 4 => do
      let destination ← input.get? 1
      let lhs ← input.get? 2
      let rhs ← input.get? 3
      pure (Token.Eq destination lhs rhs)
  | 5 => do
      let destination ← input.get? 1
      let lhs ← input.get? 2
      let rhs ← input.get? 3
      pure (Token.Gt destination lhs rhs)
  | 6 => do
      let destination ← input.get? 1
      pure (Token.Jmp destination)
  | 7 => do
      let test_val ← input.get? 1
      let destination ← input.get? 2
      pure (Token.Jt test_val destination)
  | 8 => do
      let test_val ← input.get? 1
      let destination ← input.get? 2
      pure (Token.Jf test_val destination)
  | 9 => do
      let destination ← input.get? 1
      let lhs ← input.get? 2
      let rhs ← input.get? 3
      pure (Token.Add destination lhs rhs)
  | 10 => do
      let destination ← input.get? 1
      let lhs ← input.get? 2
      let rhs ← input.get? 3
      pure (Token.Mult destination lhs rhs)
  | 11 => do
      let destination ← input.get? 1
      let lhs ← input.get? 2
      let rhs ← input.get? 3
      pure (Token.Mod destination lhs rhs)
  | 12 => do
      let destination ← input.get? 1
      let lhs ← input.get? 2
      let rhs ← input.get? 3
      pure (Token.And destination lhs rhs)
  | 13 => do
      let destination ← input.get? 1
      let lhs ← input.get? 2
      let rhs ← input.get? 3
      pure (Token.Or destination lhs rhs)
  | 14 => do
      let destination ← input.get? 1
      let value ← input.get? 2
      pure (Token.Not destination value)
  | 15 => do
      let destination ← input.get? 1
      let source ← input.get? 2
      pure (Token.Rmem destination source)
  | 16 => do
      let destination ← input.get? 1
      let value ← input.get? 2
      pure (Token.Wmem destination value)
  | 17 => do
      let destination ← input.get? 1
      pure (Token.Call destination)
  | 18 => pure Token.Ret
  | 19 => do
      let value ← input.get? 1
      pure (Token.Out value)
  | 20 => do
      let destination ← input.get? 1
      pure (Token.In destination)
  | 21 => pure Token.Noop
  | v => pure (Token.Unknown v)

/-- Token::pc_delta (parse.rs): number to increment the program counter by
to move past this instruction. -/
def Token.pc_delta : Token → Nat
  | Token.Halt => 1
  | Token.Set _ _ => 3
  | Token.Push _ => 2
  | Token.Pop _ => 2
  | Token.Eq _ _ _ => 4
  | Token.Gt _ _ _ => 4
  | Token.Jmp _ => 2
  | Token.Jt _ _ => 3
  | Token.Jf _ _ => 3
  | Token.Add _ _ _ => 4
  | Token.Mult _ _ _ => 4
  | Token.Mod _ _ _ => 4
  | Token.And _ _ _ => 4
  | Token.Or _ _ _ => 4
  | Token.Not _ _ => 3
  | Token.Rmem _ _ => 3
  | Token.Wmem _ _ => 3
  | Token.Call _ => 2
  | Token.Ret => 1
  | Token.Out _ => 2
  | Token.In _ => 2
  | Token.Noop => 1
  | Token.Unknown _ => 1

/-- Whether a token is the Out variant (the `match token` in
`Machine::run_once` that decides whether to flush the output buffer). -/
def Token.is_out : Token → Bool
  | Token.Out _ => true
  | _ => false

/-- Outcome of `Machine::process_token`: `ok` is Ok(()) with the mutated
machine, `err` is an anyhow error (the message), `panic` is a Rust panic
(out-of-bounds Vec index or `%` by zero). -/
inductive ExecResult where
  | ok : Machine → ExecResult
  | err : String → ExecResult
  | panic : ExecResult
deriving DecidableEq, Repr

/-- Machine::fetch_val (machine.rs): if arg is a register address return the
contents of that register, otherwise return arg.  Indexing memory out of
bounds panics, hence the Option. -/
def Machine.fetch_val (m : Machine) (arg : Nat) : Option Nat :=
  if arg < REGISTER_OFFSET then some arg else m.memory.get? arg

/-- Machine::aritmatic_mod_u15 (machine.rs):
`(f(lhs as u32, rhs as u32) % U15_MAX as u32) as u16`.  The u16 → u32
conversions are lossless; the u32 result of f wraps modulo 2^32; the final
u16 conversion is lossless because the value is already < 32768. -/
def aritmatic_mod_u15 (lhs rhs : Nat) (f : Nat → Nat → Nat) : Nat :=
  (f lhs rhs % 4294967296) % U15_MAX

/-- Bitwise complement of a u16 (the `!` in `Token::Not`'s
`(!self.fetch_val(value)) % U15_MAX`): for v < 2^16 the 16-bit complement
is exactly 65535 - v. -/
def not_u16 (v : Nat) : Nat :=
  65535 - v % 65536

/-- An assignment `self.memory[dest as usize] = val` followed by
`self.pc += delta` (or a pc overwrite): panics when dest is out of bounds,
as Vec indexing does. -/
def Machine.write_cell (m : Machine) (dest val new_pc : Nat) : ExecResult :=
  if dest < m.memory.length then
    ExecResult.ok { m with memory := m.memory.set dest val, pc := new_pc }
  else
    ExecResult.panic

/-- Machine::process_token (machine.rs).  Each arm mirrors the source,
in the source's evaluation order; pc advances use `Token.pc_delta`. -/
def Machine.process_token (m : Machine) (token : Token) : ExecResult :=
  match token with
  | Token.Halt =>
      ExecResult.ok { m with run_state := RunState.Halt }
  | Token.Set register value =>
      if REGISTER_OFFSET ≤ register ∧ register < REGISTER_OFFSET + NUM_REGISTERS then
        match m.fetch_val value with
        | some v => m.write_cell register v (m.pc + (Token.Set register value).pc_delta)
        | none => ExecResult.panic
      else
        ExecResult.err ("Set: register argument out of bounds: " ++ toString register)
  | Token.Push value =>
      match m.fetch_val value with
      | some v =>
          ExecResult.ok { m with stack := v :: m.stack,
                                 pc := m.pc + (Token.Push value).pc_delta }
      | none => ExecResult.panic
  | Token.Pop destination =>
      match m.stack with
      | value :: rest =>
          match ({ m with stack := rest }).write_cell destination value
                  (m.pc + (Token.Pop destination).pc_delta) with
          | ExecResult.ok m2 => ExecResult.ok m2
          | r => r
      | [] => ExecResult.err "Attempted to pop empty stack"
  | Token.Eq destination lhs rhs =>
      match m.fetch_val lhs, m.fetch_val rhs with
      | some a, some b =>
          m.write_cell destination (if a = b then 1 else 0)
            (m.pc + (Token.Eq destination lhs rhs).pc_delta)
      | _, _ => ExecResult.panic
  | Token.Gt destination lhs rhs =>
      match m.fetch_val lhs, m.fetch_val rhs with
      | some a, some b =>
          m.write_cell destination (if a > b then 1 else 0)
            (m.pc + (Token.Gt destination lhs rhs).pc_delta)
      | _, _ => ExecResult.panic
  | Token.Jmp destination =>
      match m.fetch_val destination with
      | some d => ExecResult.ok { m with pc := d }
      | none => ExecResult.panic
  | Token.Jt test_val destination =>
      match m.fetch_val test_val with
      | some t =>
          if t ≠ 0 then
            match m.fetch_val destination with
            | some d => ExecResult.ok { m with pc := d }
            | none => ExecResult.panic
          else
            ExecResult.ok { m with pc := m.pc + (Token.Jt test_val destination).pc_delta }
      | none => ExecResult.panic
  | Token.Jf test_val destination =>
      match m.fetch_val test_val with
      | some t =>
          if t = 0 then
            match m.fetch_val destination with
            | some d => ExecResult.ok { m with pc := d }
            | none => ExecResult.panic
          else
            ExecResult.ok { m with pc := m.pc + (Token.Jf test_val destination).pc_delta }
      | none => ExecResult.panic
  | Token.Add destination lhs rhs =>
      match m.fetch_val lhs, m.fetch_val rhs with
      | some a, some b =>
          m.write_cell destination (aritmatic_mod_u15 a b (fun x y => x + y))
            (m.pc + (Token.Add destination lhs rhs).pc_delta)
      | _, _ => ExecResult.panic
  | Token.Mult destination lhs rhs =>
      match m.fetch_val lhs, m.fetch_val rhs with
      | some a, some b =>
          m.write_cell destination (aritmatic_mod_u15 a b (fun x y => x * y))
            (m.pc + (Token.Mult destination lhs rhs).pc_delta)
      | _, _ => ExecResult.panic
  | Token.Mod destination lhs rhs =>
      match m.fetch_val lhs, m.fetch_val rhs with
      | some a, some b =>
          if b = 0 then
            ExecResult.panic
          else
            m.write_cell destination (a % b)
              (m.pc + (Token.Mod destination lhs rhs).pc_delta)
      | _, _ => ExecResult.panic
  | Token.And destination lhs rhs =>
      match m.fetch_val lhs, m.fetch_val rhs with
      | some a, some b =>
          m.write_cell destination (Nat.land a b % U15_MAX)
            (m.pc + (Token.And destination lhs rhs).pc_delta)
      | _, _ => ExecResult.panic
  | Token.Or destination lhs rhs =>
      match m.fetch_val lhs, m.fetch_val rhs with
      | some a, some b =>
          m.write_cell destination (Nat.lor a b % U15_MAX)
            (m.pc + (Token.Or destination lhs rhs).pc_delta)
      | _, _ => ExecResult.panic
  | Token.Not destination value =>
      match m.fetch_val value with
      | some v =>
          m.write_cell destination (not_u16 v % U15_MAX)
            (m.pc + (Token.Not destination value).pc_delta)
      | none => ExecResult.panic
  | Token.Rmem destination source =>
      match m.fetch_val source with
      | some s =>
          match m.memory.get? s with
          | some value =>
              m.write_cell destination value
                (m.pc + (Token.Rmem destination source).pc_delta)
          | none => ExecResult.panic
      | none => ExecResult.panic
  | Token.Wmem destination value =>
      match m.fetch_val destination with
      | some d =>
          match m.fetch_val value with
          | some v =>
              m.write_cell d v (m.pc + (Token.Wmem destination value).pc_delta)
          | none => ExecResult.panic
      | none => ExecResult.panic
  | Token.Call destination =>
      -- self.stack.push(self.pc as u16 + token.pc_delta() as u16): u16
      -- truncation of pc, wrapping u16 addition
      match m.fetch_val destination with
      | some d =>
          ExecResult.ok { m with
            stack := ((m.pc % 65536 + (Token.Call destination).pc_delta % 65536) % 65536)
                       :: m.stack,
            pc := d }
      | none => ExecResult.panic
  | Token.Ret =>
      match m.stack with
      | destination :: rest =>
          ExecResult.ok { m with pc := destination, stack := rest }
      | [] => ExecResult.ok { m with run_state := RunState.Halt }
  | Token.Out arg =>
      match m.fetch_val arg with
      | some val =>
          -- char::from_u32(val as u32) fails exactly on surrogate values
          -- (val is a u16, so the > 0x10FFFF case is unreachable)
          if 55296 ≤ val % 65536 ∧ val % 65536 < 57344 then
            ExecResult.err "Could not convert {val} to char"
          else
            ExecResult.ok { m with output_buffer := m.output_buffer ++ [val],
                                   pc := m.pc + (Token.Out arg).pc_delta }
      | none => ExecResult.panic
  | Token.In destination =>
      match m.input_buffer with
      | ch :: rest =>
          -- self.memory[destination as usize] = ch as u16
          match ({ m with input_buffer := rest }).write_cell destination (ch % 65536)
                  (m.pc + (Token.In destination).pc_delta) with
          | ExecResult.ok m2 => ExecResult.ok m2
          | r => r
      | [] => ExecResult.ok { m with run_state := RunState.InuptNeeded }
  | Token.Noop =>
      ExecResult.ok { m with pc := m.pc + Token.Noop.pc_delta }
  | Token.Unknown v =>
      ExecResult.err ("process_token: Unknown token encountered at " ++ toString m.pc
        ++ ": Unknown(" ++ toString v ++ ")")

/-- The `if let Err(e) = self.process_token(token)` wrapper in
`Machine::run_once`: an Err sets the Error run state with the formatted
message; a panic aborts the process (`none`). -/
def Machine.step_exec (m : Machine) (token : Token) : Option Machine :=
  match m.process_token token with
  | ExecResult.ok m2 => some m2
  | ExecResult.err e =>
      some { m with run_state :=
        RunState.Error ("Error processing token: " ++ e ++ ", pc: " ++ toString m.pc) }
  | ExecResult.panic => none

/-- The body of `Machine::run_once` after the run-state dispatch: slice the
memory at pc (panics when pc > length), parse, flush the output buffer
before any non-Out token, otherwise process the token.  On parse failure
the error message indexes `self.memory[self.pc]`, which panics when pc is
exactly the memory length. -/
def Machine.run_once_core (m : Machine) : Option Machine :=
  if m.pc ≤ m.memory.length then
    match Token.parse (m.memory.drop m.pc) with
    | some token =>
        if token.is_out = false ∧ 0 < m.output_buffer.length then
          some { m with run_state := RunState.BufferedOutput m.output_buffer,
                        output_buffer := [] }
        else
          m.step_exec token
    | none =>
        match m.memory.get? m.pc with
        | some w =>
            some { m with run_state :=
              RunState.Error ("could not parse instruction at " ++ toString m.pc
                ++ ": " ++ toString w) }
        | none => none
  else
    none

/-- Machine::run_once (machine.rs): the single-step operation.  `none`
models a Rust panic. -/
def Machine.run_once (m : Machine) : Option Machine :=
  match m.run_state with
  | RunState.Halt => some m
  | RunState.Error _ => some m
  | RunState.InuptNeeded =>
      if m.input_buffer.length = 0 then
        some m
      else
        Machine.run_once_core { m with run_state := RunState.Continue }
  | RunState.BufferedOutput _ =>
      Machine.run_once_core { m with run_state := RunState.Continue }
  | RunState.Continue => Machine.run_once_core m

/-- Machine::push_input (machine.rs): extend the input queue with the
characters of the driver-supplied text. -/
def Machine.push_input (m : Machine) (input : List Nat) : Machine :=
  { m with input_buffer := m.input_buffer ++ input }

/-- Machine::new (machine.rs): memory is the program zero-extended to
U15_MAX + NUM_REGISTERS cells. -/
def Machine.new (program : List Nat) : Machine :=
  { run_state := RunState.Continue,
    pc := 0,
    stack := [],
    memory := program ++ List.replicate (MEM_SIZE - program.length) 0,
    input_buffer := [],
    output_buffer := [] }

/-- States from which `run_once` proceeds to decode and act at pc (the
absorbing Halt/Error states and an InuptNeeded state with no pending input
return unchanged instead). -/
def Machine.can_step (m : Machine) : Prop :=
  match m.run_state with
  | RunState.Continue => True
  | RunState.BufferedOutput _ => True
  | RunState.InuptNeeded => m.input_buffer ≠ []
  | RunState.Error _ => False
  | RunState.Halt => False

/-- Side conditions under which a destination-writing instruction other
than Set reaches its unchecked destination index with that index out of
bounds (at or above MEM_SIZE = 32776): the preceding fallible steps of the
arm succeed (operand resolution, the stack or input pop, the Rmem source
read, a non-zero Mod divisor) and the written cell is out of range.  For
Wmem the checked index is the resolved destination. -/
def Machine.oob_write_precond (m : Machine) : Token → Prop
  | Token.Pop d => m.stack ≠ [] ∧ MEM_SIZE ≤ d
  | Token.Eq d l r => (m.fetch_val l).isSome = true ∧ (m.fetch_val r).isSome = true
      ∧ MEM_SIZE ≤ d
  | Token.Gt d l r => (m.fetch_val l).isSome = true ∧ (m.fetch_val r).isSome = true
      ∧ MEM_SIZE ≤ d
  | Token.Add d l r => (m.fetch_val l).isSome = true ∧ (m.fetch_val r).isSome = true
      ∧ MEM_SIZE ≤ d
  | Token.Mult d l r => (m.fetch_val l).isSome = true ∧ (m.fetch_val r).isSome = true
      ∧ MEM_SIZE ≤ d
  | Token.Mod d l r => (m.fetch_val l).isSome = true ∧ (m.fetch_val r).getD 0 ≠ 0
      ∧ MEM_SIZE ≤ d
  | Token.And d l r => (m.fetch_val l).isSome = true ∧ (m.fetch_val r).isSome = true
      ∧ MEM_SIZE ≤ d
  | Token.Or d l r => (m.fetch_val l).isSome = true ∧ (m.fetch_val r).isSome = true
      ∧ MEM_SIZE ≤ d
  | Token.Not d v => (m.fetch_val v).isSome = true ∧ MEM_SIZE ≤ d
  | Token.Rmem d s => (m.fetch_val s).getD MEM_SIZE < MEM_SIZE ∧ MEM_SIZE ≤ d
  | Token.Wmem d v => (m.fetch_val d).isSome = true ∧ MEM_SIZE ≤ (m.fetch_val d).getD 0
      ∧ (m.fetch_val v).isSome = true
  | Token.In d => m.input_buffer ≠ [] ∧ MEM_SIZE ≤ d
  | _ => False

end Synacore

namespace Replay

/-!
Model of ReplayManager::replay_files and ReplayManager::next_file_path
(src/replay.rs).  The filesystem is abstracted as the list of file names
(each a `List Char`) present in the replay directory; everything past the
directory read is modelled exactly: the regex filter `(replay_[\d]+)`
(is_match, i.e. anywhere in the name), the ascending `sort` of the names,
popping from the end, `split_once('_')` and `parse::<u32>()`.  String
order is lexicographic on unicode scalar values, which coincides with
Rust's byte-wise String order on ASCII names.
-/

/-- "replays", the fixed save directory (REPLAY_SAVE_DIR). -/
def REPLAY_SAVE_DIR : List Char := "replays".data

def is_digit (c : Char) : Bool :=
  48 ≤ c.toNat && c.toNat ≤ 57

/-- Does the name start with "replay_" followed by at least one digit
(one anchored attempt of the regex `replay_[\d]+`)? -/
def matches_here (s : List Char) : Bool :=
  match s with
  | 'r' :: 'e' :: 'p' :: 'l' :: 'a' :: 'y' :: '_' :: c :: _ => is_digit c
  | _ => false

/-- Regex::is_match for `(replay_[\d]+)`: the pattern occurs somewhere in
the name. -/
def is_replay_name (s : List Char) : Bool :=
  match s with
  | [] => false
  | _ :: rest => matches_here s || is_replay_name rest

/-- Strict lexicographic order on names (Rust String Ord, restricted to
scalar-value comparison). -/
def name_lt (a b : List Char) : Bool :=
  match a, b with
  | [], [] => false
  | [], _ :: _ => true
  | _ :: _, [] => false
  | x :: xs, y :: ys =>
      if x.toNat < y.toNat then true
      else if y.toNat < x.toNat then false
      else name_lt xs ys

def insert_name (x : List Char) : List (List Char) → List (List Char)
  | [] => [x]
  | y :: ys => if name_lt y x then y :: insert_name x ys else x :: y :: ys

/-- Ascending sort of the file names (Vec::sort). -/
def sort_names : List (List Char) → List (List Char)
  | [] => []
  | x :: xs => insert_name x (sort_names xs)

/-- ReplayManager::replay_files, given the names present in the replay
directory: keep the names matching the regex, sorted ascending. -/
def replay_files (dir : List (List Char)) : List (List Char) :=
  sort_names (dir.filter is_replay_name)

/-- str::split_once('_'): split at the first underscore. -/
def split_once_underscore : List Char → Option (List Char × List Char)
  | [] => none
  | c :: rest =>
      if c = '_' then some ([], rest)
      else
        match split_once_underscore rest with
        | some (a, b) => some (c :: a, b)
        | none => none

def digits_value : List Char → Nat → Option Nat
  | [], acc => some acc
  | c :: rest, acc =>
      if is_digit c then digits_value rest (acc * 10 + (c.toNat - 48))
      else none

/-- str::parse::<u32>: an optional leading '+', then one or more digits,
rejecting values that overflow u32. -/
def parse_u32 (s : List Char) : Option Nat :=
  let body := match s with
              | '+' :: rest => rest
              | _ => s
  match body with
  | [] => none
  | _ =>
      match digits_value body 0 with
      | some v => if v < 4294967296 then some v else none
      | none => none

/-- The `while let Some(replay_file) = replay_files.pop()` loop of
ReplayManager::next_file_path, receiving the sorted file list already
reversed (so the head is the last, i.e. lexicographically greatest,
name). -/
def next_file_loop : List (List Char) → List Char
  | [] => ("replays/replay_1").data
  | f :: rest =>
      match split_once_underscore f with
      | some (_, file_num) =>
          match parse_u32 file_num with
          | some n => ("replays/replay_").data ++ (toString (n + 1)).data
          | none => next_file_loop rest
      | none => next_file_loop rest

/-- ReplayManager::next_file_path, given the names present in the replay
directory. -/
def next_file_path (dir : List (List Char)) : List Char :=
  next_file_loop (replay_files dir).reverse

end Replay

namespace Synacore

theorem Token.parse_nil : Token.parse [] = none := rfl

/-- If an instruction parses at the window starting at index n, then n is
within bounds (so the Rust slice `&memory[pc..]` does not panic). -/
theorem pc_le_of_parse {l : List Nat} {n : Nat} {tok : Token}
    (h : Token.parse (l.drop n) = some tok) : n ≤ l.length := by
  by_contra hn
  rw [List.drop_eq_nil_of_le (Nat.le_of_lt (Nat.lt_of_not_le hn))] at h
  rw [Token.parse_nil] at h
  exact Option.noConfusion h

/-- From any state that proceeds (Continue, BufferedOutput, or InuptNeeded
with pending input), run_once runs the core body with the run state reset
to Continue. -/
theorem run_once_of_can_step (m : Machine) (h : m.can_step) :
    m.run_once = Machine.run_once_core { m with run_state := RunState.Continue } := by
  obtain ⟨rs, pc, stack, mem, ib, ob⟩ := m
  cases rs with
  | Continue => rfl
  | BufferedOutput s => rfl
  | InuptNeeded =>
      have hib : ib ≠ [] := by simpa [Machine.can_step] using h
      simp only [Machine.run_once]
      rw [if_neg (by simpa using hib)]
  | Error e => exact absurd h (by simp [Machine.can_step])
  | Halt => exact absurd h (by simp [Machine.can_step])

/-- Unfolding of the core body when the output buffer is empty: the parsed
token is processed. -/
theorem run_once_core_exec (m : Machine) (tok : Token)
    (hob : m.output_buffer = [])
    (hp : Token.parse (m.memory.drop m.pc) = some tok) :
    m.run_once_core = m.step_exec tok := by
  have hle := pc_le_of_parse hp
  unfold Machine.run_once_core
  rw [if_pos hle, hp, hob]
  simp

/-- Single-step execution from a Continue state with an empty output
buffer processes the instruction parsed at pc. -/
theorem run_once_exec (m : Machine) (tok : Token)
    (hrs : m.run_state = RunState.Continue)
    (hob : m.output_buffer = [])
    (hp : Token.parse (m.memory.drop m.pc) = some tok) :
    m.run_once = m.step_exec tok := by
  have hcs : m.can_step := by unfold Machine.can_step; rw [hrs]; trivial
  rw [run_once_of_can_step m hcs]
  have heq : ({ m with run_state := RunState.Continue } : Machine) = m := by
    obtain ⟨rs, pc, stack, mem, ib, ob⟩ := m
    cases hrs
    rfl
  rw [heq]
  exact run_once_core_exec m tok hob hp

/-- A freshly constructed machine has the full 32776-cell memory whenever
the program fits. -/
theorem new_memory_length (program : List Nat) (h : program.length ≤ MEM_SIZE) :
    (Machine.new program).memory.length = MEM_SIZE := by
  simp only [Machine.new]
  rw [List.length_append, List.length_replicate]
  omega

/-- C5: Halt and Error are absorbing: from RunState Halt or Error the step
operation returns the same run state and leaves the entire machine state
(pc, memory, registers, stack, input queue, output buffer) unchanged. -/
theorem halt_error_absorbing (m : Machine)
    (h : m.run_state = RunState.Halt ∨ ∃ e, m.run_state = RunState.Error e) :
    m.run_once = some m := by
  obtain ⟨rs, pc, stack, mem, ib, ob⟩ := m
  rcases h with h | ⟨e, h⟩ <;> cases h <;> rfl

theorem halt_error_absorbing_witness :
    ({ Machine.new [] with run_state := RunState.Halt } : Machine).run_once
        = some { Machine.new [] with run_state := RunState.Halt }
      ∧ ({ Machine.new [] with run_state := RunState.Error "boom" } : Machine).run_once
        = some { Machine.new [] with run_state := RunState.Error "boom" } :=
  ⟨halt_error_absorbing _ (Or.inl rfl),
   halt_error_absorbing _ (Or.inr ⟨"boom", rfl⟩)⟩

/-- C2: a Set instruction with destination word in the register range
[32768, 32776) writes the resolved value operand to that memory cell and
advances pc by 3; with any destination word outside that range it
transitions to the Error state and leaves pc, memory (hence every
register), stack, and buffers unchanged — there is never a silent
write. -/
theorem set_register_validation (m : Machine) (r v val : Nat)
    (hwf : m.memory.length = MEM_SIZE)
    (hrs : m.run_state = RunState.Continue)
    (hob : m.output_buffer = [])
    (hp : Token.parse (m.memory.drop m.pc) = some (Token.Set r v))
    (hv : m.fetch_val v = some val) :
    m.run_once = some (if REGISTER_OFFSET ≤ r ∧ r < REGISTER_OFFSET + NUM_REGISTERS
      then { m with memory := m.memory.set r val, pc := m.pc + 3 }
      else { m with run_state :=
               RunState.Error ("Error processing token: "
                 ++ ("Set: register argument out of bounds: " ++ toString r)
                 ++ ", pc: " ++ toString m.pc) }) := by
  rw [run_once_exec m (Token.Set r v) hrs hob hp]
  simp only [Machine.step_exec, Machine.process_token, hv]
  by_cases hr : REGISTER_OFFSET ≤ r ∧ r < REGISTER_OFFSET + NUM_REGISTERS
  · rw [if_pos hr, if_pos hr]
    have hlt : r < m.memory.length := by
      rw [hwf]
      simp only [MEM_SIZE, REGISTER_OFFSET, U15_MAX, NUM_REGISTERS] at hr ⊢
      omega
    rw [Machine.write_cell, if_pos hlt]
    simp [Token.pc_delta]
  · rw [if_neg hr, if_neg hr]

theorem set_register_validation_witness :
    (Machine.new [1, 32768, 61]).run_once
      = some (if REGISTER_OFFSET ≤ 32768 ∧ 32768 < REGISTER_OFFSET + NUM_REGISTERS
          then { Machine.new [1, 32768, 61] with
                   memory := (Machine.new [1, 32768, 61]).memory.set 32768 61,
                   pc := 0 + 3 }
          else { Machine.new [1, 32768, 61] with run_state := RunState.Error ("Error processing token: " ++ ("Set: register argument out of bounds: " ++ toString 32768) ++ ", pc: " ++ toString 0) }) :=
  set_register_validation (Machine.new [1, 32768, 61]) 32768 61 61
    (new_memory_length _ (by simp [MEM_SIZE, U15_MAX, NUM_REGISTERS]))
    rfl rfl rfl rfl

/-- C3: Ret with an empty stack transitions to Halt (defined termination),
while Pop with an empty stack transitions to Error; with a non-empty stack
Ret sets pc to the popped word, and Pop writes the popped word to the
destination cell and advances pc by 2. -/
theorem ret_pop_stack_semantics :
    (∀ (m : Machine),
        m.run_state = RunState.Continue →
        m.output_buffer = [] →
        Token.parse (m.memory.drop m.pc) = some Token.Ret →
        m.run_once = some (match m.stack with
          | [] => { m with run_state := RunState.Halt }
          | d :: rest => { m with pc := d, stack := rest }))
    ∧ (∀ (m : Machine) (dest : Nat),
        m.run_state = RunState.Continue →
        m.output_buffer = [] →
        Token.parse (m.memory.drop m.pc) = some (Token.Pop dest) →
        dest < m.memory.length →
        m.run_once = some (match m.stack with
          | [] => { m with run_state :=
                      RunState.Error ("Error processing token: "
                        ++ "Attempted to pop empty stack" ++ ", pc: " ++ toString m.pc) }
          | v :: rest => { m with memory := m.memory.set dest v,
                                  pc := m.pc + 2, stack := rest })) := by
  constructor
  · intro m hrs hob hp
    rw [run_once_exec m Token.Ret hrs hob hp]
    rcases hs : m.stack with _ | ⟨d, rest⟩ <;>
      simp only [Machine.step_exec, Machine.process_token, hs]
  · intro m dest hrs hob hp hd
    rw [run_once_exec m (Token.Pop dest) hrs hob hp]
    rcases hs : m.stack with _ | ⟨v, rest⟩ <;>
      simp only [Machine.step_exec, Machine.process_token, hs, Machine.write_cell,
        Token.pc_delta]
    rw [if_pos hd]

theorem ret_pop_stack_semantics_witness :
    (Machine.mk RunState.Continue 0 [] [18] [] []).run_once
        = some (Machine.mk RunState.Halt 0 [] [18] [] [])
      ∧ (Machine.mk RunState.Continue 0 [5] [18] [] []).run_once
        = some (Machine.mk RunState.Continue 5 [] [18] [] [])
      ∧ (Machine.mk RunState.Continue 0 [7] [3, 1, 0] [] []).run_once
        = some (Machine.mk RunState.Continue 2 [] [3, 7, 0] [] [])
      ∧ (Machine.mk RunState.Continue 0 [] [3, 1, 0] [] []).run_once
        = some (Machine.mk (RunState.Error ("Error processing token: "
            ++ "Attempted to pop empty stack" ++ ", pc: " ++ toString 0)) 0 [] [3, 1, 0] [] []) :=
  ⟨(ret_pop_stack_semantics.1 (Machine.mk RunState.Continue 0 [] [18] [] [])
      rfl rfl rfl).trans (by decide),
   (ret_pop_stack_semantics.1 (Machine.mk RunState.Continue 0 [5] [18] [] [])
      rfl rfl rfl).trans (by decide),
   (ret_pop_stack_semantics.2 (Machine.mk RunState.Continue 0 [7] [3, 1, 0] [] [])
      1 rfl rfl rfl (by decide)).trans (by decide),
   (ret_pop_stack_semantics.2 (Machine.mk RunState.Continue 0 [] [3, 1, 0] [] [])
      1 rfl rfl rfl (by decide)).trans (by rfl)⟩

/-- C6: with both resolved operands a, b < 32768, Add stores exactly
(a + b) mod 32768, Mult stores exactly (a * b) mod 32768 (the u32
intermediate cannot wrap, so no overflow affects the result), and And/Or
store the bitwise combination reduced mod 32768; each advances pc by 4. -/
theorem add_mult_and_or_mod_32768 :
    (∀ (m : Machine) (d l r a b : Nat),
        m.run_state = RunState.Continue →
        m.output_buffer = [] →
        Token.parse (m.memory.drop m.pc) = some (Token.Add d l r) →
        m.fetch_val l = some a → m.fetch_val r = some b →
        a < 32768 → b < 32768 → d < m.memory.length →
        m.run_once = some { m with memory := m.memory.set d ((a + b) % 32768),
                                   pc := m.pc + 4 })
    ∧ (∀ (m : Machine) (d l r a b : Nat),
        m.run_state = RunState.Continue →
        m.output_buffer = [] →
        Token.parse (m.memory.drop m.pc) = some (Token.Mult d l r) →
        m.fetch_val l = some a → m.fetch_val r = some b →
        a < 32768 → b < 32768 → d < m.memory.length →
        m.run_once = some { m with memory := m.memory.set d ((a * b) % 32768),
                                   pc := m.pc + 4 })
    ∧ (∀ (m : Machine) (d l r a b : Nat),
        m.run_state = RunState.Continue →
        m.output_buffer = [] →
        Token.parse (m.memory.drop m.pc) = some (Token.And d l r) →
        m.fetch_val l = some a → m.fetch_val r = some b →
        a < 32768 → b < 32768 → d < m.memory.length →
        m.run_once = some { m with memory := m.memory.set d (Nat.land a b % 32768),
                                   pc := m.pc + 4 })
    ∧ (∀ (m : Machine) (d l r a b : Nat),
        m.run_state = RunState.Continue →
        m.output_buffer = [] →
        Token.parse (m.memory.drop m.pc) = some (Token.Or d l r) →
        m.fetch_val l = some a → m.fetch_val r = some b →
        a < 32768 → b < 32768 → d < m.memory.length →
        m.run_once = some { m with memory := m.memory.set d (Nat.lor a b % 32768),
                                   pc := m.pc + 4 }) := by
  refine ⟨?_, ?_, ?_, ?_⟩ <;> intro m d l r a b hrs hob hp hl hr ha hb hd
  · rw [run_once_exec m (Token.Add d l r) hrs hob hp]
    simp only [Machine.step_exec, Machine.process_token, hl, hr, Machine.write_cell,
      Token.pc_delta]
    rw [if_pos hd]
    have harith : aritmatic_mod_u15 a b (fun x y => x + y) = (a + b) % 32768 := by
      simp only [aritmatic_mod_u15, U15_MAX]
      have hub : (a + b) % 4294967296 = a + b := Nat.mod_eq_of_lt (by omega)
      rw [hub]
    rw [harith]
  · rw [run_once_exec m (Token.Mult d l r) hrs hob hp]
    simp only [Machine.step_exec, Machine.process_token, hl, hr, Machine.write_cell,
      Token.pc_delta]
    rw [if_pos hd]
    have harith : aritmatic_mod_u15 a b (fun x y => x * y) = (a * b) % 32768 := by
      simp only [aritmatic_mod_u15, U15_MAX]
      have hub : (a * b) % 4294967296 = a * b :=
        Nat.mod_eq_of_lt (lt_of_lt_of_le
          (mul_lt_mul'' ha hb (Nat.zero_le _) (Nat.zero_le _)) (by norm_num))
      rw [hub]
    rw [harith]
  · rw [run_once_exec m (Token.And d l r) hrs hob hp]
    simp only [Machine.step_exec, Machine.process_token, hl, hr, Machine.write_cell,
      Token.pc_delta, U15_MAX]
    rw [if_pos hd]
  · rw [run_once_exec m (Token.Or d l r) hrs hob hp]
    simp only [Machine.step_exec, Machine.process_token, hl, hr, Machine.write_cell,
      Token.pc_delta, U15_MAX]
    rw [if_pos hd]

theorem add_mult_and_or_mod_32768_witness :
    (Machine.mk RunState.Continue 0 [] [9, 4, 2, 3, 0] [] []).run_once
        = some (Machine.mk RunState.Continue 4 [] [9, 4, 2, 3, 5] [] [])
      ∧ (Machine.mk RunState.Continue 0 [] [10, 4, 2, 3, 0] [] []).run_once
        = some (Machine.mk RunState.Continue 4 [] [10, 4, 2, 3, 6] [] [])
      ∧ (Machine.mk RunState.Continue 0 [] [12, 4, 2, 3, 0] [] []).run_once
        = some (Machine.mk RunState.Continue 4 [] [12, 4, 2, 3, 2] [] [])
      ∧ (Machine.mk RunState.Continue 0 [] [13, 4, 2, 3, 0] [] []).run_once
        = some (Machine.mk RunState.Continue 4 [] [13, 4, 2, 3, 3] [] []) :=
  ⟨(add_mult_and_or_mod_32768.1 (Machine.mk RunState.Continue 0 [] [9, 4, 2, 3, 0] [] [])
      4 2 3 2 3 rfl rfl rfl rfl rfl (by decide) (by decide) (by decide)).trans (by decide),
   (add_mult_and_or_mod_32768.2.1 (Machine.mk RunState.Continue 0 [] [10, 4, 2, 3, 0] [] [])
      4 2 3 2 3 rfl rfl rfl rfl rfl (by decide) (by decide) (by decide)).trans (by decide),
   (add_mult_and_or_mod_32768.2.2.1 (Machine.mk RunState.Continue 0 [] [12, 4, 2, 3, 0] [] [])
      4 2 3 2 3 rfl rfl rfl rfl rfl (by decide) (by decide) (by decide)).trans (by decide),
   (add_mult_and_or_mod_32768.2.2.2 (Machine.mk RunState.Continue 0 [] [13, 4, 2, 3, 0] [] [])
      4 2 3 2 3 rfl rfl rfl rfl rfl (by decide) (by decide) (by decide)).trans (by decide)⟩

/-- C7: Not stores the 15-bit complement of the resolved value v < 32768 —
the 16-bit complement reduced mod 32768 — which equals 32767 - v and is
always a valid word below 32768; pc advances by 3. -/
theorem not_fifteen_bit_complement (m : Machine) (d v val : Nat)
    (hrs : m.run_state = RunState.Continue)
    (hob : m.output_buffer = [])
    (hp : Token.parse (m.memory.drop m.pc) = some (Token.Not d v))
    (hv : m.fetch_val v = some val)
    (hval : val < 32768)
    (hd : d < m.memory.length) :
    m.run_once = some { m with memory := m.memory.set d (32767 - val),
                               pc := m.pc + 3 }
      ∧ 32767 - val < 32768 := by
  constructor
  · rw [run_once_exec m (Token.Not d v) hrs hob hp]
    simp only [Machine.step_exec, Machine.process_token, hv, Machine.write_cell,
      Token.pc_delta]
    rw [if_pos hd]
    have hcomp : not_u16 val % U15_MAX = 32767 - val := by
      simp only [not_u16, U15_MAX]
      omega
    rw [hcomp]
  · omega

theorem not_fifteen_bit_complement_witness :
    (Machine.mk RunState.Continue 0 [] [14, 3, 5, 0] [] []).run_once
        = some (Machine.mk RunState.Continue 3 [] [14, 3, 5, 32762] [] [])
      ∧ 32767 - 5 < 32768 :=
  ⟨((not_fifteen_bit_complement
      (Machine.mk RunState.Continue 0 [] [14, 3, 5, 0] [] []) 3 5 5
      rfl rfl rfl rfl (by decide) (by decide)).1).trans (by decide),
   (not_fifteen_bit_complement
      (Machine.mk RunState.Continue 0 [] [14, 3, 5, 0] [] []) 3 5 5
      rfl rfl rfl rfl (by decide) (by decide)).2⟩

/-- C9: a Mod instruction whose second resolved operand is 0 hits an
unguarded Rust `%` and panics — the step crashes (`none`) instead of
transitioning to the Error run state; with a non-zero second operand
execution is total and stores resolve(a) mod resolve(b), advancing pc
by 4. -/
theorem mod_zero_panics_nonzero_total :
    (∀ (m : Machine) (d l r a : Nat),
        m.run_state = RunState.Continue →
        m.output_buffer = [] →
        Token.parse (m.memory.drop m.pc) = some (Token.Mod d l r) →
        m.fetch_val l = some a → m.fetch_val r = some 0 →
        m.run_once = none)
    ∧ (∀ (m : Machine) (d l r a b : Nat),
        m.run_state = RunState.Continue →
        m.output_buffer = [] →
        Token.parse (m.memory.drop m.pc) = some (Token.Mod d l r) →
        m.fetch_val l = some a → m.fetch_val r = some b → b ≠ 0 →
        d < m.memory.length →
        m.run_once = some { m with memory := m.memory.set d (a % b),
                                   pc := m.pc + 4 }) := by
  constructor
  · intro m d l r a hrs hob hp hl hr
    rw [run_once_exec m (Token.Mod d l r) hrs hob hp]
    simp [Machine.step_exec, Machine.process_token, hl, hr]
  · intro m d l r a b hrs hob hp hl hr hb hd
    rw [run_once_exec m (Token.Mod d l r) hrs hob hp]
    simp only [Machine.step_exec, Machine.process_token, hl, hr, Machine.write_cell,
      Token.pc_delta, if_neg hb]
    rw [if_pos hd]

theorem mod_zero_panics_nonzero_total_witness :
    (Machine.mk RunState.Continue 0 [] [11, 3, 7, 0] [] []).run_once = none
      ∧ (Machine.mk RunState.Continue 0 [] [11, 4, 7, 3, 0] [] []).run_once
          = some (Machine.mk RunState.Continue 4 [] [11, 4, 7, 3, 1] [] []) :=
  ⟨mod_zero_panics_nonzero_total.1 (Machine.mk RunState.Continue 0 [] [11, 3, 7, 0] [] [])
      3 7 0 7 rfl rfl rfl rfl rfl,
   (mod_zero_panics_nonzero_total.2 (Machine.mk RunState.Continue 0 [] [11, 4, 7, 3, 0] [] [])
      4 7 3 7 3 rfl rfl rfl rfl rfl (by decide) (by decide)).trans (by decide)⟩

/-- C4: an In instruction executed with an empty input queue transitions
to InuptNeeded leaving pc, memory, stack, and buffers untouched; after the
driver supplies input, the next step leaves InuptNeeded, re-executes the
same In instruction, writes the front character of the queue (removed from
it) into the destination cell, and advances pc by 2. -/
theorem in_suspends_then_resumes (m : Machine) (d : Nat)
    (hrs : m.run_state = RunState.Continue)
    (hob : m.output_buffer = [])
    (hib : m.input_buffer = [])
    (hp : Token.parse (m.memory.drop m.pc) = some (Token.In d))
    (hd : d < m.memory.length) :
    m.run_once = some { m with run_state := RunState.InuptNeeded }
      ∧ ∀ (c : Nat) (cs : List Nat),
          (({ m with run_state := RunState.InuptNeeded }).push_input (c :: cs)).run_once
            = some { m with run_state := RunState.Continue,
                            memory := m.memory.set d (c % 65536),
                            pc := m.pc + 2,
                            input_buffer := cs } := by
  constructor
  · rw [run_once_exec m (Token.In d) hrs hob hp]
    simp only [Machine.step_exec, Machine.process_token, hib]
  · intro c cs
    show (Machine.mk RunState.InuptNeeded m.pc m.stack m.memory
            (m.input_buffer ++ (c :: cs)) m.output_buffer).run_once = _
    rw [hib, hob, List.nil_append]
    simp only [Machine.run_once]
    rw [if_neg (by simp)]
    rw [run_once_core_exec (Machine.mk RunState.Continue m.pc m.stack m.memory (c :: cs) [])
      (Token.In d) rfl hp]
    simp only [Machine.step_exec, Machine.process_token, Machine.write_cell,
      Token.pc_delta]
    rw [if_pos hd]

theorem in_suspends_then_resumes_witness :
    (Machine.mk RunState.Continue 0 [] [20, 2, 0] [] []).run_once
        = some (Machine.mk RunState.InuptNeeded 0 [] [20, 2, 0] [] [])
      ∧ ((Machine.mk RunState.InuptNeeded 0 [] [20, 2, 0] [] []).push_input
            [104, 105]).run_once
        = some (Machine.mk RunState.Continue 2 [] [20, 2, 104] [105] []) := by
  have h := in_suspends_then_resumes (Machine.mk RunState.Continue 0 [] [20, 2, 0] [] [])
    2 rfl rfl rfl rfl (by decide)
  exact ⟨(h.1).trans (by decide), (h.2 104 [105]).trans (by decide)⟩

/-- C1: output is batched at instruction boundaries: from any state that
proceeds to decode, when the output buffer is non-empty and the decoded
instruction is not Out, the step returns BufferedOutput with exactly the
buffered characters in order, empties the buffer, and does not execute the
instruction (pc, memory, and stack are unchanged, so the same instruction
is decoded again next step); when the decoded instruction is Out, its
character is appended to the buffer and no BufferedOutput is returned
(the run state stays Continue). -/
theorem output_batching_at_boundaries :
    (∀ (m : Machine) (tok : Token),
        m.can_step →
        Token.parse (m.memory.drop m.pc) = some tok →
        tok.is_out = false →
        m.output_buffer ≠ [] →
        m.run_once = some { m with run_state := RunState.BufferedOutput m.output_buffer,
                                   output_buffer := [] })
    ∧ (∀ (m : Machine) (a val : Nat),
        m.can_step →
        Token.parse (m.memory.drop m.pc) = some (Token.Out a) →
        m.fetch_val a = some val →
        ¬(55296 ≤ val % 65536 ∧ val % 65536 < 57344) →
        m.run_once = some { m with run_state := RunState.Continue,
                                   output_buffer := m.output_buffer ++ [val],
                                   pc := m.pc + 2 }) := by
  constructor
  · intro m tok hcs hp ho hob
    rw [run_once_of_can_step m hcs]
    have hle : m.pc ≤ m.memory.length := pc_le_of_parse hp
    have hcond : tok.is_out = false ∧ 0 < m.output_buffer.length :=
      ⟨ho, List.length_pos.mpr hob⟩
    unfold Machine.run_once_core
    dsimp only
    rw [if_pos hle, hp]
    dsimp only
    rw [if_pos hcond]
  · intro m a val hcs hp hv hsur
    rw [run_once_of_can_step m hcs]
    have hle : m.pc ≤ m.memory.length := pc_le_of_parse hp
    have hv2 : Machine.fetch_val
        (Machine.mk RunState.Continue m.pc m.stack m.memory m.input_buffer m.output_buffer)
        a = some val := hv
    unfold Machine.run_once_core
    dsimp only
    rw [if_pos hle, hp]
    dsimp only
    rw [if_neg (by simp [Token.is_out])]
    simp only [Machine.step_exec, Machine.process_token, hv2, Token.pc_delta]
    rw [if_neg hsur]

theorem output_batching_at_boundaries_witness :
    (Machine.mk RunState.Continue 0 [] [21] [] [72, 105]).run_once
        = some (Machine.mk (RunState.BufferedOutput [72, 105]) 0 [] [21] [] [])
      ∧ (Machine.mk RunState.Continue 0 [] [19, 65] [] [72]).run_once
        = some (Machine.mk RunState.Continue 2 [] [19, 65] [] [72, 65]) :=
  ⟨(output_batching_at_boundaries.1 (Machine.mk RunState.Continue 0 [] [21] [] [72, 105])
      Token.Noop trivial rfl rfl (by decide)).trans (by decide),
   (output_batching_at_boundaries.2 (Machine.mk RunState.Continue 0 [] [19, 65] [] [72])
      65 65 trivial rfl rfl (by decide)).trans (by decide)⟩

/-- C10: unlike Set, the other destination-writing instructions (Pop, Eq,
Gt, Add, Mult, Mod, And, Or, Not, Rmem, In, and Wmem via its resolved
address) use the destination word directly as an index into the
32776-cell memory with no range check: whenever the written index is at or
above 32776 (and the arm's earlier steps succeed), the step crashes
(`none`) instead of transitioning to the Error run state. -/
theorem unchecked_destination_crash (m : Machine) (tok : Token)
    (hwf : m.memory.length = MEM_SIZE)
    (hrs : m.run_state = RunState.Continue)
    (hob : m.output_buffer = [])
    (hp : Token.parse (m.memory.drop m.pc) = some tok)
    (hc : m.oob_write_precond tok) :
    m.run_once = none := by
  rw [run_once_exec m tok hrs hob hp]
  cases tok with
  | Pop d =>
      obtain ⟨hs, hd⟩ := hc
      have hnd : ¬ d < m.memory.length := Nat.not_lt.mpr (by rw [hwf]; exact hd)
      rcases hstk : m.stack with _ | ⟨v, rest⟩
      · exact absurd hstk hs
      · simp [Machine.step_exec, Machine.process_token, hstk, Machine.write_cell, hnd]
  | Eq d l r =>
      obtain ⟨hl, hr, hd⟩ := hc
      have hnd : ¬ d < m.memory.length := Nat.not_lt.mpr (by rw [hwf]; exact hd)
      obtain ⟨a, ha⟩ := Option.isSome_iff_exists.mp hl
      obtain ⟨b, hb⟩ := Option.isSome_iff_exists.mp hr
      simp [Machine.step_exec, Machine.process_token, ha, hb, Machine.write_cell, hnd]
  | Gt d l r =>
      obtain ⟨hl, hr, hd⟩ := hc
      have hnd : ¬ d < m.memory.length := Nat.not_lt.mpr (by rw [hwf]; exact hd)
      obtain ⟨a, ha⟩ := Option.isSome_iff_exists.mp hl
      obtain ⟨b, hb⟩ := Option.isSome_iff_exists.mp hr
      simp [Machine.step_exec, Machine.process_token, ha, hb, Machine.write_cell, hnd]
  | Add d l r =>
      obtain ⟨hl, hr, hd⟩ := hc
      have hnd : ¬ d < m.memory.length := Nat.not_lt.mpr (by rw [hwf]; exact hd)
      obtain ⟨a, ha⟩ := Option.isSome_iff_exists.mp hl
      obtain ⟨b, hb⟩ := Option.isSome_iff_exists.mp hr
      simp [Machine.step_exec, Machine.process_token, ha, hb, Machine.write_cell, hnd]
  | Mult d l r =>
      obtain ⟨hl, hr, hd⟩ := hc
      have hnd : ¬ d < m.memory.length := Nat.not_lt.mpr (by rw [hwf]; exact hd)
      obtain ⟨a, ha⟩ := Option.isSome_iff_exists.mp hl
      obtain ⟨b, hb⟩ := Option.isSome_iff_exists.mp hr
      simp [Machine.step_exec, Machine.process_token, ha, hb, Machine.write_cell, hnd]
  | Mod d l r =>
      obtain ⟨hl, hr0, hd⟩ := hc
      have hnd : ¬ d < m.memory.length := Nat.not_lt.mpr (by rw [hwf]; exact hd)
      obtain ⟨a, ha⟩ := Option.isSome_iff_exists.mp hl
      rcases hfr : m.fetch_val r with _ | b
      · rw [hfr] at hr0
        simp at hr0
      · rw [hfr] at hr0
        simp at hr0
        simp [Machine.step_exec, Machine.process_token, ha, hfr, hr0,
          Machine.write_cell, hnd]
  | And d l r =>
      obtain ⟨hl, hr, hd⟩ := hc
      have hnd : ¬ d < m.memory.length := Nat.not_lt.mpr (by rw [hwf]; exact hd)
      obtain ⟨a, ha⟩ := Option.isSome_iff_exists.mp hl
      obtain ⟨b, hb⟩ := Option.isSome_iff_exists.mp hr
      simp [Machine.step_exec, Machine.process_token, ha, hb, Machine.write_cell, hnd]
  | Or d l r =>
      obtain ⟨hl, hr, hd⟩ := hc
      have hnd : ¬ d < m.memory.length := Nat.not_lt.mpr (by rw [hwf]; exact hd)
      obtain ⟨a, ha⟩ := Option.isSome_iff_exists.mp hl
      obtain ⟨b, hb⟩ := Option.isSome_iff_exists.mp hr
      simp [Machine.step_exec, Machine.process_token, ha, hb, Machine.write_cell, hnd]
  | Not d v =>
      obtain ⟨hv, hd⟩ := hc
      have hnd : ¬ d < m.memory.length := Nat.not_lt.mpr (by rw [hwf]; exact hd)
      obtain ⟨a, ha⟩ := Option.isSome_iff_exists.mp hv
      simp [Machine.step_exec, Machine.process_token, ha, Machine.write_cell, hnd]
  | Rmem d s =>
      obtain ⟨hsv, hd⟩ := hc
      have hnd : ¬ d < m.memory.length := Nat.not_lt.mpr (by rw [hwf]; exact hd)
      rcases hfs : m.fetch_val s with _ | sv
      · rw [hfs] at hsv
        simp at hsv
      · rw [hfs] at hsv
        simp at hsv
        rcases hgot : m.memory.get? sv with _ | value
        · have := List.get?_eq_none.mp hgot
          rw [hwf] at this
          omega
        · simp [Machine.step_exec, Machine.process_token, hfs, hgot,
            Machine.write_cell, hnd]
          cases m.memory[sv]? <;> rfl
  | Wmem d v =>
      obtain ⟨hds, hdd, hvs⟩ := hc
      obtain ⟨dv, hdv⟩ := Option.isSome_iff_exists.mp hds
      obtain ⟨vv, hvv⟩ := Option.isSome_iff_exists.mp hvs
      rw [hdv] at hdd
      simp at hdd
      have hnd : ¬ dv < m.memory.length := Nat.not_lt.mpr (by rw [hwf]; exact hdd)
      simp [Machine.step_exec, Machine.process_token, hdv, hvv, Machine.write_cell, hnd]
  | In d =>
      obtain ⟨hi, hd⟩ := hc
      have hnd : ¬ d < m.memory.length := Nat.not_lt.mpr (by rw [hwf]; exact hd)
      rcases hin : m.input_buffer with _ | ⟨c, rest⟩
      · exact absurd hin hi
      · simp [Machine.step_exec, Machine.process_token, hin, Machine.write_cell, hnd]
  | Halt => exact hc.elim
  | Set r v => exact hc.elim
  | Push v => exact hc.elim
  | Jmp d => exact hc.elim
  | Jt t d => exact hc.elim
  | Jf t d => exact hc.elim
  | Call d => exact hc.elim
  | Ret => exact hc.elim
  | Out a => exact hc.elim
  | Noop => exact hc.elim
  | Unknown v => exact hc.elim

theorem unchecked_destination_crash_witness :
    ({ Machine.new [3, 40000] with stack := [7] } : Machine).run_once = none :=
  unchecked_destination_crash { Machine.new [3, 40000] with stack := [7] }
    (Token.Pop 40000)
    (new_memory_length [3, 40000] (by simp [MEM_SIZE, U15_MAX, NUM_REGISTERS]))
    rfl rfl rfl ⟨by decide, by decide⟩

end Synacore

/-- C8 (refuted by execution): ReplayManager sorts replay file names
lexicographically, so with existing logs replay_9 and replay_10 the
"highest" name popped is replay_9 and next_file_path returns
replays/replay_10, which collides with the existing replay_10 log (the
highest numeric suffix is 10, so a fresh name would be replay_11).  The
no-logs default replays/replay_1 does hold. -/
theorem next_file_path_collision :
    Replay.next_file_path ["replay_9".data, "replay_10".data] = ("replays/replay_10").data
      ∧ ("replay_10").data ∈ ["replay_9".data, "replay_10".data]
      ∧ Replay.next_file_path [] = ("replays/replay_1").data := by
  refine ⟨by decide, by decide, by decide⟩
